import Mathlib

/-!
Shallow embedding of the single-qubit Bloch-sphere core of
`src/app/page.tsx` (Next.js page).  JavaScript numbers are modelled as
real numbers; the only place the spec's claims depend on the non-finite
JavaScript values (NaN, Infinity) is the rotation delta of `applyRotation`,
which is therefore modelled by the dedicated type `JSNum` below.
`Math.atan2 y x` is modelled by `Complex.arg ⟨x, y⟩`, which agrees with it
on all real (finite) arguments, including `atan2 0 0 = 0`.
-/

/-- `type BlochVector = Record<Axis, number>` — a real 3-vector. -/
structure BlochVector where
  x : ℝ
  y : ℝ
  z : ℝ

/-- `type Axis = 'x' | 'y' | 'z'`. -/
inductive Axis where
  | x
  | y
  | z
deriving DecidableEq

/-- `const clamp = (value, min, max) => Math.min(max, Math.max(min, value))`. -/
noncomputable def clamp (value lo hi : ℝ) : ℝ :=
  min hi (max lo value)

/-- `const toRad = (deg) => (deg * Math.PI) / 180`. -/
noncomputable def toRad (deg : ℝ) : ℝ :=
  deg * Real.pi / 180

/-- `normalizeState` (page.tsx lines 31–35).  Over the real numbers the
JavaScript guard `!Number.isFinite(r) || r === 0` reduces to `r = 0`,
since the norm of a real triple is always finite. -/
noncomputable def normalizeState (v : BlochVector) : BlochVector :=
  let r := Real.sqrt (v.x * v.x + v.y * v.y + v.z * v.z)
  if r = 0 then ⟨0, 0, 1⟩ else ⟨v.x / r, v.y / r, v.z / r⟩

/-- `rotateStateAboutAxis` (page.tsx lines 37–51). -/
noncomputable def rotateStateAboutAxis (v : BlochVector) (axis : Axis) (deg : ℝ) :
    BlochVector :=
  let theta := toRad deg
  let c := Real.cos theta
  let s := Real.sin theta
  match axis with
  | Axis.x => ⟨v.x, v.y * c - v.z * s, v.y * s + v.z * c⟩
  | Axis.y => ⟨v.x * c + v.z * s, v.y, -v.x * s + v.z * c⟩
  | Axis.z => ⟨v.x * c - v.y * s, v.x * s + v.y * c, v.z⟩

/-- `Math.atan2 y x`, modelled as the argument of the complex number
`x + y·i`; both lie in `(-π, π]` and both send `(0, 0)` to `0`. -/
noncomputable def atan2 (y x : ℝ) : ℝ :=
  Complex.arg ⟨x, y⟩

/-- `cartesianToSpherical` (page.tsx lines 54–66): normalize, take
`theta = acos(min(1, max(-1, z)))` and `phi = atan2(y, x)` wrapped into
`[0, 2π)`.  Returns `(theta, phi)`. -/
noncomputable def cartesianToSpherical (v : BlochVector) : ℝ × ℝ :=
  let n := normalizeState v
  let theta := Real.arccos (min 1 (max (-1) n.z))
  let phi0 := atan2 n.y n.x
  let phi := if phi0 < 0 then phi0 + 2 * Real.pi else phi0
  (theta, phi)

/-- `extractQuantumAmplitudes` (page.tsx lines 73–80).  A complex
amplitude `[re, im]` is modelled as a pair `ℝ × ℝ`. -/
noncomputable def extractQuantumAmplitudes (state : BlochVector) :
    (ℝ × ℝ) × (ℝ × ℝ) :=
  let sph := cartesianToSpherical state
  let theta := sph.1
  let phi := sph.2
  ((Real.cos (theta / 2), 0),
   (Real.sin (theta / 2) * Real.cos phi, Real.sin (theta / 2) * Real.sin phi))

/-- `extractBlochVectorFromAmplitudes` (page.tsx lines 82–91). -/
noncomputable def extractBlochVectorFromAmplitudes (alpha beta : ℝ × ℝ) :
    BlochVector :=
  normalizeState
    ⟨2 * (alpha.1 * beta.1 + alpha.2 * beta.2),
     2 * (alpha.2 * beta.1 - alpha.1 * beta.2),
     alpha.1 * alpha.1 + alpha.2 * alpha.2 - beta.1 * beta.1 - beta.2 * beta.2⟩

/-- `applyGateToState` (page.tsx lines 93–120): the `switch` on the gate
token, modelled as a chain of string comparisons ending in the default
branch that returns the amplitudes unchanged. -/
noncomputable def applyGateToState (alpha beta : ℝ × ℝ) (gate : String) :
    (ℝ × ℝ) × (ℝ × ℝ) :=
  if gate = "H" then
    (((alpha.1 + beta.1) / Real.sqrt 2, (alpha.2 + beta.2) / Real.sqrt 2),
     ((alpha.1 - beta.1) / Real.sqrt 2, (alpha.2 - beta.2) / Real.sqrt 2))
  else if gate = "X" then
    (beta, alpha)
  else if gate = "Y" then
    ((-beta.2, beta.1), (alpha.2, -alpha.1))
  else if gate = "Z" then
    ((alpha.1, alpha.2), (-beta.1, -beta.2))
  else if gate = "S" then
    (alpha, (-beta.2, beta.1))
  else if gate = "T" then
    (alpha, ((beta.1 + -beta.2) / Real.sqrt 2, (beta.1 + beta.2) / Real.sqrt 2))
  else
    (alpha, beta)

/-- `applyGateToVector` (page.tsx lines 122–126). -/
noncomputable def applyGateToVector (state : BlochVector) (gate : String) :
    BlochVector :=
  let amps := extractQuantumAmplitudes state
  let res := applyGateToState amps.1 amps.2 gate
  extractBlochVectorFromAmplitudes res.1 res.2

/-- Euclidean norm of a Bloch vector, used to state the unit-norm
invariant of the spec. -/
noncomputable def blochNorm (v : BlochVector) : ℝ :=
  Real.sqrt (v.x ^ 2 + v.y ^ 2 + v.z ^ 2)

/-- A JavaScript `number` as passed for the rotation delta: either a
finite real or one of the non-finite values `NaN`, `+Infinity`,
`-Infinity`. -/
inductive JSNum where
  | val : ℝ → JSNum
  | nan : JSNum
  | posInf : JSNum
  | negInf : JSNum

/-- `Number.isFinite` on a `JSNum`. -/
def JSNum.isFinite : JSNum → Bool
  | JSNum.val _ => true
  | _ => false

/-- The finite value of a `JSNum` (irrelevant, 0, on non-finite inputs;
only ever read behind the `isFinite` guard, mirroring
`Number.isFinite(deltaDeg) ? deltaDeg : 0`). -/
def JSNum.toFinite : JSNum → ℝ
  | JSNum.val r => r
  | _ => 0

/-- The React component state of the first `Page` variant
(page.tsx lines 247–251): the Bloch vector plus the auxiliary
display/reset state. -/
structure Session where
  state : BlochVector
  controlsResetKey : ℕ
  lastAction : String
  activeState : String

/-- The initial session: state `(0,0,1)`, reset key 0, and the two
status strings (page.tsx lines 248–251). -/
def initialSession : Session :=
  ⟨⟨0, 0, 1⟩, 0, "System initialized", "|0⟩"⟩

/-- Display label of an axis (`axis.toUpperCase()`). -/
def axisLabel : Axis → String
  | Axis.x => "X"
  | Axis.y => "Y"
  | Axis.z => "Z"

/-- `applyRotation` (page.tsx lines 262–270): coerce a non-finite delta
to zero, return the session unchanged on a zero delta, otherwise rotate
the normalized state and re-normalize.  The numeric part of the
`lastAction` string (`delta.toFixed(0)`) is display-only formatting and
is elided from the embedded message. -/
noncomputable def applyRotation (s : Session) (axis : Axis) (deltaDeg : JSNum) :
    Session :=
  let delta := if deltaDeg.isFinite then deltaDeg.toFinite else 0
  if delta = 0 then s
  else
    ⟨normalizeState (rotateStateAboutAxis (normalizeState s.state) axis delta),
     s.controlsResetKey,
     "ROTATE: R_" ++ axisLabel axis,
     ""⟩

/-- `applyGate` of the first `Page` variant (page.tsx lines 272–276). -/
noncomputable def applyGate (s : Session) (gate : String) : Session :=
  ⟨applyGateToVector s.state gate,
   s.controlsResetKey,
   "GATE APPLIED: " ++ gate,
   ""⟩

/-- `reset` (page.tsx lines 278–283). -/
def reset (s : Session) : Session :=
  ⟨⟨0, 0, 1⟩, s.controlsResetKey + 1, "SYSTEM RESET", "|0⟩"⟩

/-- `set` (page.tsx lines 285–290). -/
noncomputable def set (s : Session) (x y z : ℝ) (name : String) : Session :=
  ⟨normalizeState ⟨x, y, z⟩, s.controlsResetKey + 1, "STATE SET: " ++ name, name⟩

/-- The sessions reachable from the initial session by the four
user-issued actions of the first `Page` variant. -/
inductive Reachable : Session → Prop
  | start : Reachable initialSession
  | rot {s : Session} (axis : Axis) (d : JSNum) :
      Reachable s → Reachable (applyRotation s axis d)
  | gate {s : Session} (g : String) :
      Reachable s → Reachable (applyGate s g)
  | setTo {s : Session} (x y z : ℝ) (name : String) :
      Reachable s → Reachable (set s x y z name)
  | res {s : Session} :
      Reachable s → Reachable (reset s)

/-- The component state of the third `Page` variant
(page.tsx lines 1026–1029): vector, reset key and last-action text. -/
structure SessionV3 where
  state : BlochVector
  controlsResetKey : ℕ
  lastAction : String

namespace V3

/-- `applyGate` of the third `Page` variant (page.tsx lines 1055–1057):
it only sets the last-action text and never calls `setState` on the
vector. -/
def applyGate (s : SessionV3) (gate : String) : SessionV3 :=
  ⟨s.state, s.controlsResetKey, "Gate: " ++ gate⟩

end V3

/-- Complex multiplication on `ℝ × ℝ` amplitude pairs, used to state the
"up to global phase" relation of the spec's glossary. -/
def cmul (u v : ℝ × ℝ) : ℝ × ℝ :=
  (u.1 * v.1 - u.2 * v.2, u.1 * v.2 + u.2 * v.1)

/-! ## Basic facts about `normalizeState` -/

lemma normalizeState_normSq (v : BlochVector) :
    (normalizeState v).x ^ 2 + (normalizeState v).y ^ 2 + (normalizeState v).z ^ 2 = 1 := by
  unfold normalizeState
  by_cases h : Real.sqrt (v.x * v.x + v.y * v.y + v.z * v.z) = 0
  · simp [h]
  · simp only [h, if_false]
    have hnn : (0 : ℝ) ≤ v.x * v.x + v.y * v.y + v.z * v.z := by
      nlinarith [mul_self_nonneg v.x, mul_self_nonneg v.y, mul_self_nonneg v.z]
    have hsq : Real.sqrt (v.x * v.x + v.y * v.y + v.z * v.z) ^ 2
        = v.x * v.x + v.y * v.y + v.z * v.z := Real.sq_sqrt hnn
    have hS : v.x * v.x + v.y * v.y + v.z * v.z ≠ 0 := by
      intro h0
      exact h (by rw [h0, Real.sqrt_zero])
    field_simp
    ring

lemma normalizeState_unit {v : BlochVector}
    (h : v.x ^ 2 + v.y ^ 2 + v.z ^ 2 = 1) : normalizeState v = v := by
  unfold normalizeState
  have hr : Real.sqrt (v.x * v.x + v.y * v.y + v.z * v.z) = 1 := by
    have : v.x * v.x + v.y * v.y + v.z * v.z = 1 := by nlinarith [h]
    rw [this, Real.sqrt_one]
  simp [hr]

/-! ## Facts about `atan2` -/

lemma atan2_cos_mul (y x : ℝ) :
    Real.cos (atan2 y x) * Real.sqrt (x ^ 2 + y ^ 2) = x := by
  unfold atan2
  by_cases hz : (⟨x, y⟩ : ℂ) = 0
  · have hx : x = 0 := congrArg Complex.re hz
    have hy : y = 0 := congrArg Complex.im hz
    simp [hx, hy]
  · have habs : Complex.abs ⟨x, y⟩ = Real.sqrt (x ^ 2 + y ^ 2) := by
      rw [Complex.abs_apply, Complex.normSq_mk]
      ring_nf
    have hcos := Complex.cos_arg hz
    rw [hcos, habs]
    have hpos : 0 < Real.sqrt (x ^ 2 + y ^ 2) := by
      rw [← habs]
      exact Complex.abs.pos hz
    field_simp

lemma atan2_sin_mul (y x : ℝ) :
    Real.sin (atan2 y x) * Real.sqrt (x ^ 2 + y ^ 2) = y := by
  unfold atan2
  by_cases hz : (⟨x, y⟩ : ℂ) = 0
  · have hx : x = 0 := congrArg Complex.re hz
    have hy : y = 0 := congrArg Complex.im hz
    simp [hx, hy]
  · have habs : Complex.abs ⟨x, y⟩ = Real.sqrt (x ^ 2 + y ^ 2) := by
      rw [Complex.abs_apply, Complex.normSq_mk]
      ring_nf
    have hsin := Complex.sin_arg (⟨x, y⟩ : ℂ)
    rw [hsin, habs]
    have hpos : 0 < Real.sqrt (x ^ 2 + y ^ 2) := by
      rw [← habs]
      exact Complex.abs.pos hz
    field_simp

/-! ## The wrapped azimuth has the same cosine and sine -/

lemma cos_wrap (p : ℝ) :
    Real.cos (if p < 0 then p + 2 * Real.pi else p) = Real.cos p := by
  split
  · exact Real.cos_add_two_pi p
  · rfl

lemma sin_wrap (p : ℝ) :
    Real.sin (if p < 0 then p + 2 * Real.pi else p) = Real.sin p := by
  split
  · exact Real.sin_add_two_pi p
  · rfl

/-! ## The amplitudes produced for a unit vector -/

lemma extractQuantumAmplitudes_unit {v : BlochVector}
    (h : v.x ^ 2 + v.y ^ 2 + v.z ^ 2 = 1) :
    extractQuantumAmplitudes v =
      ((Real.cos (Real.arccos v.z / 2), 0),
       (Real.sin (Real.arccos v.z / 2) * Real.cos (atan2 v.y v.x),
        Real.sin (Real.arccos v.z / 2) * Real.sin (atan2 v.y v.x))) := by
  have hz1 : -1 ≤ v.z := by nlinarith [sq_nonneg v.x, sq_nonneg v.y, sq_nonneg (v.z + 1)]
  have hz2 : v.z ≤ 1 := by nlinarith [sq_nonneg v.x, sq_nonneg v.y, sq_nonneg (v.z - 1)]
  have hclamp : min 1 (max (-1) v.z) = v.z := by
    rw [max_eq_right hz1, min_eq_right hz2]
  simp only [extractQuantumAmplitudes, cartesianToSpherical, normalizeState_unit h,
    hclamp, cos_wrap, sin_wrap]

/-- Double-angle identity specialised to `theta = arccos z` of a unit
vector: `2·sin(θ/2)·cos(θ/2) = sin θ = √(x² + y²)`. -/
lemma two_sin_cos_half_arccos {v : BlochVector}
    (h : v.x ^ 2 + v.y ^ 2 + v.z ^ 2 = 1) :
    2 * Real.sin (Real.arccos v.z / 2) * Real.cos (Real.arccos v.z / 2)
      = Real.sqrt (v.x ^ 2 + v.y ^ 2) := by
  have h2 : 2 * (Real.arccos v.z / 2) = Real.arccos v.z := by ring
  rw [← Real.sin_two_mul, h2, Real.sin_arccos]
  congr 1
  linarith [h]

/-- `cos²(θ/2) − sin²(θ/2) = cos θ = z` for `theta = arccos z` of a unit
vector. -/
lemma cos_sq_sub_sin_sq_half_arccos {v : BlochVector}
    (h : v.x ^ 2 + v.y ^ 2 + v.z ^ 2 = 1) :
    Real.cos (Real.arccos v.z / 2) ^ 2 - Real.sin (Real.arccos v.z / 2) ^ 2 = v.z := by
  have hz1 : -1 ≤ v.z := by nlinarith [sq_nonneg v.x, sq_nonneg v.y, sq_nonneg (v.z + 1)]
  have hz2 : v.z ≤ 1 := by nlinarith [sq_nonneg v.x, sq_nonneg v.y, sq_nonneg (v.z - 1)]
  have h2 : 2 * (Real.arccos v.z / 2) = Real.arccos v.z := by ring
  rw [← Real.cos_two_mul', h2, Real.cos_arccos hz1 hz2]

/-- If the three Bloch components computed from an amplitude pair equal
the components of a unit vector `w`, then
`extractBlochVectorFromAmplitudes` returns `w` itself. -/
lemma extractBloch_eq_of_components {a b : ℝ × ℝ} {w : BlochVector}
    (h1 : 2 * (a.1 * b.1 + a.2 * b.2) = w.x)
    (h2 : 2 * (a.2 * b.1 - a.1 * b.2) = w.y)
    (h3 : a.1 * a.1 + a.2 * a.2 - b.1 * b.1 - b.2 * b.2 = w.z)
    (hw : w.x ^ 2 + w.y ^ 2 + w.z ^ 2 = 1) :
    extractBlochVectorFromAmplitudes a b = w := by
  unfold extractBlochVectorFromAmplitudes
  rw [h1, h2, h3]
  exact normalizeState_unit hw

/-- The amplitude round trip of the source flips the sign of the `y`
component: for every unit `v`,
`extractBlochVectorFromAmplitudes (extractQuantumAmplitudes v) = (x, −y, z)`. -/
lemma roundTrip_eq_flipY {v : BlochVector}
    (h : v.x ^ 2 + v.y ^ 2 + v.z ^ 2 = 1) :
    extractBlochVectorFromAmplitudes (extractQuantumAmplitudes v).1
      (extractQuantumAmplitudes v).2 = ⟨v.x, -v.y, v.z⟩ := by
  rw [extractQuantumAmplitudes_unit h]
  have F1 := two_sin_cos_half_arccos h
  have F2 := atan2_cos_mul v.y v.x
  have F3 := atan2_sin_mul v.y v.x
  have F4 := cos_sq_sub_sin_sq_half_arccos h
  have P := Real.sin_sq_add_cos_sq (atan2 v.y v.x)
  apply extractBloch_eq_of_components
  · show 2 * (Real.cos (Real.arccos v.z / 2) *
        (Real.sin (Real.arccos v.z / 2) * Real.cos (atan2 v.y v.x)) +
        0 * (Real.sin (Real.arccos v.z / 2) * Real.sin (atan2 v.y v.x)))
      = (⟨v.x, -v.y, v.z⟩ : BlochVector).x
    show _ = v.x
    linear_combination Real.cos (atan2 v.y v.x) * F1 + F2
  · show 2 * (0 * (Real.sin (Real.arccos v.z / 2) * Real.cos (atan2 v.y v.x)) -
        Real.cos (Real.arccos v.z / 2) *
        (Real.sin (Real.arccos v.z / 2) * Real.sin (atan2 v.y v.x)))
      = (⟨v.x, -v.y, v.z⟩ : BlochVector).y
    show _ = -v.y
    linear_combination (-(Real.sin (atan2 v.y v.x))) * F1 - F3
  · show _ = (⟨v.x, -v.y, v.z⟩ : BlochVector).z
    show _ = v.z
    linear_combination F4 - (Real.sin (Real.arccos v.z / 2)) ^ 2 * P
  · show v.x ^ 2 + (-v.y) ^ 2 + v.z ^ 2 = 1
    linear_combination h

/-! ## Case reductions of `applyGateToState` -/

lemma applyGateToState_H (a b : ℝ × ℝ) :
    applyGateToState a b "H" =
      (((a.1 + b.1) / Real.sqrt 2, (a.2 + b.2) / Real.sqrt 2),
       ((a.1 - b.1) / Real.sqrt 2, (a.2 - b.2) / Real.sqrt 2)) := by
  simp [applyGateToState]

lemma applyGateToState_X (a b : ℝ × ℝ) :
    applyGateToState a b "X" = (b, a) := by
  simp [applyGateToState]

lemma applyGateToState_Q (a b : ℝ × ℝ) :
    applyGateToState a b "Q" = (a, b) := by
  simp [applyGateToState]

/-! ## The Bloch-sphere action of the X and H gates as implemented -/

lemma applyGateToVector_X {v : BlochVector}
    (h : v.x ^ 2 + v.y ^ 2 + v.z ^ 2 = 1) :
    applyGateToVector v "X" = ⟨v.x, v.y, -v.z⟩ := by
  simp only [applyGateToVector]
  rw [extractQuantumAmplitudes_unit h, applyGateToState_X]
  have F1 := two_sin_cos_half_arccos h
  have F2 := atan2_cos_mul v.y v.x
  have F3 := atan2_sin_mul v.y v.x
  have F4 := cos_sq_sub_sin_sq_half_arccos h
  have P := Real.sin_sq_add_cos_sq (atan2 v.y v.x)
  apply extractBloch_eq_of_components
  · show _ = v.x
    linear_combination Real.cos (atan2 v.y v.x) * F1 + F2
  · show _ = v.y
    linear_combination Real.sin (atan2 v.y v.x) * F1 + F3
  · show _ = -v.z
    linear_combination -F4 + (Real.sin (Real.arccos v.z / 2)) ^ 2 * P
  · show v.x ^ 2 + v.y ^ 2 + (-v.z) ^ 2 = 1
    linear_combination h

lemma applyGateToVector_H {v : BlochVector}
    (h : v.x ^ 2 + v.y ^ 2 + v.z ^ 2 = 1) :
    applyGateToVector v "H" = ⟨v.z, v.y, v.x⟩ := by
  simp only [applyGateToVector]
  rw [extractQuantumAmplitudes_unit h, applyGateToState_H]
  have key : ∀ p q : ℝ, p / Real.sqrt 2 * (q / Real.sqrt 2) = p * q / 2 := by
    intro p q
    rw [div_mul_div_comm, Real.mul_self_sqrt (by norm_num : (0:ℝ) ≤ 2)]
  have F1 := two_sin_cos_half_arccos h
  have F2 := atan2_cos_mul v.y v.x
  have F3 := atan2_sin_mul v.y v.x
  have F4 := cos_sq_sub_sin_sq_half_arccos h
  have P := Real.sin_sq_add_cos_sq (atan2 v.y v.x)
  apply extractBloch_eq_of_components
  · show _ = v.z
    simp only [key]
    linear_combination F4 - (Real.sin (Real.arccos v.z / 2)) ^ 2 * P
  · show _ = v.y
    simp only [key]
    linear_combination Real.sin (atan2 v.y v.x) * F1 + F3
  · show _ = v.x
    simp only [key]
    linear_combination Real.cos (atan2 v.y v.x) * F1 + F2
  · show v.z ^ 2 + v.y ^ 2 + v.x ^ 2 = 1
    linear_combination h

/-! ## Claim theorems -/

/-- C3: for every vector and every angle in degrees, `rotateStateAboutAxis`
applies exactly the right-handed rotation stated in the spec —
about x: `(x, y·cosθ − z·sinθ, y·sinθ + z·cosθ)`;
about y: `(x·cosθ + z·sinθ, y, −x·sinθ + z·cosθ)`;
about z: `(x·cosθ − y·sinθ, x·sinθ + y·cosθ, z)` —
with `θ = toRad deg`, the rotation axis's own component unchanged. -/
theorem rotateStateAboutAxis_matrix_spec (v : BlochVector) (deg : ℝ) :
    rotateStateAboutAxis v Axis.x deg =
      ⟨v.x, v.y * Real.cos (toRad deg) - v.z * Real.sin (toRad deg),
       v.y * Real.sin (toRad deg) + v.z * Real.cos (toRad deg)⟩ ∧
    rotateStateAboutAxis v Axis.y deg =
      ⟨v.x * Real.cos (toRad deg) + v.z * Real.sin (toRad deg), v.y,
       -v.x * Real.sin (toRad deg) + v.z * Real.cos (toRad deg)⟩ ∧
    rotateStateAboutAxis v Axis.z deg =
      ⟨v.x * Real.cos (toRad deg) - v.y * Real.sin (toRad deg),
       v.x * Real.sin (toRad deg) + v.y * Real.cos (toRad deg), v.z⟩ :=
  ⟨rfl, rfl, rfl⟩

/-- C4: every branch of `applyGateToState` — H, X, Y, Z, S, T and the
default branch — preserves the squared-amplitude sum
`|alpha|² + |beta|²` exactly. -/
theorem applyGateToState_preserves_normSq (alpha beta : ℝ × ℝ) (gate : String) :
    (applyGateToState alpha beta gate).1.1 ^ 2 + (applyGateToState alpha beta gate).1.2 ^ 2 +
      (applyGateToState alpha beta gate).2.1 ^ 2 + (applyGateToState alpha beta gate).2.2 ^ 2
      = alpha.1 ^ 2 + alpha.2 ^ 2 + beta.1 ^ 2 + beta.2 ^ 2 := by
  have key : ∀ p : ℝ, (p / Real.sqrt 2) ^ 2 = p ^ 2 / 2 := by
    intro p
    rw [div_pow, Real.sq_sqrt (by norm_num : (0:ℝ) ≤ 2)]
  unfold applyGateToState
  split_ifs <;> simp only [Prod.fst, Prod.snd, key] <;> ring

/-- C6: `normalizeState` is total: the zero vector maps to the canonical
default `(0,0,1)`, and every not-all-zero real triple maps to a vector of
Euclidean norm exactly 1.  (Over the real numbers every input is finite,
so the JavaScript non-finite guard never fires.) -/
theorem normalizeState_total_and_unit :
    normalizeState ⟨0, 0, 0⟩ = ⟨0, 0, 1⟩ ∧
    ∀ v : BlochVector, ¬(v.x = 0 ∧ v.y = 0 ∧ v.z = 0) →
      blochNorm (normalizeState v) = 1 := by
  constructor
  · simp [normalizeState]
  · intro v _
    rw [blochNorm, normalizeState_normSq, Real.sqrt_one]

/-- Witness for C6 at the concrete input `(3, 0, 0)`. -/
theorem normalizeState_total_and_unit_witness :
    ¬((3:ℝ) = 0 ∧ (0:ℝ) = 0 ∧ (0:ℝ) = 0) ∧
      blochNorm (normalizeState ⟨3, 0, 0⟩) = 1 :=
  ⟨by norm_num, normalizeState_total_and_unit.2 ⟨3, 0, 0⟩ (by norm_num)⟩

/-- C9: a non-finite rotation delta (NaN, +∞ or −∞) is coerced to zero
and the zero-delta early return leaves the whole session — vector,
reset key and status strings — unchanged. -/
theorem applyRotation_nonfinite_delta_noop (s : Session) (axis : Axis) (d : JSNum)
    (h : d.isFinite = false) : applyRotation s axis d = s := by
  cases d with
  | val r => simp [JSNum.isFinite] at h
  | nan => simp [applyRotation, JSNum.isFinite]
  | posInf => simp [applyRotation, JSNum.isFinite]
  | negInf => simp [applyRotation, JSNum.isFinite]

/-- Witness for C9: `NaN` as rotation delta leaves the initial session
untouched. -/
theorem applyRotation_nonfinite_delta_noop_witness :
    JSNum.isFinite JSNum.nan = false ∧
      applyRotation initialSession Axis.x JSNum.nan = initialSession :=
  ⟨rfl, applyRotation_nonfinite_delta_noop initialSession Axis.x JSNum.nan rfl⟩

/-- C10: in the third UI variant, `applyGate` only rewrites the
last-action text; the session's state vector (and reset key) are
unchanged for every gate token. -/
theorem applyGateV3_leaves_state_unchanged (s : SessionV3) (gate : String) :
    (V3.applyGate s gate).state = s.state ∧
    (V3.applyGate s gate).controlsResetKey = s.controlsResetKey ∧
    (V3.applyGate s gate).lastAction = "Gate: " ++ gate :=
  ⟨rfl, rfl, rfl⟩

/-- Squared-norm version of the session invariant, proved by induction
over the reachability relation. -/
lemma reachable_state_normSq {s : Session} (h : Reachable s) :
    s.state.x ^ 2 + s.state.y ^ 2 + s.state.z ^ 2 = 1 := by
  induction h with
  | start => norm_num [initialSession]
  | rot axis d _ ih =>
      simp only [applyRotation]
      split <;> split <;>
        first
        | exact ih
        | exact normalizeState_normSq _
  | gate g _ ih => exact normalizeState_normSq _
  | setTo x y z name _ ih => exact normalizeState_normSq _
  | res _ ih => norm_num [reset]

/-- C2: starting from the initial state `(0,0,1)`, every session state
reachable by `applyRotation`, `applyGate`, `set` and `reset` has
Euclidean norm exactly 1 — the stored state is never un-normalized. -/
theorem reachable_session_state_unit_norm (s : Session) (h : Reachable s) :
    blochNorm s.state = 1 := by
  rw [blochNorm, reachable_state_normSq h, Real.sqrt_one]

/-- Witness for C2: the session reached by one H gate followed by one
rotation is reachable and has unit norm. -/
theorem reachable_session_state_unit_norm_witness :
    Reachable (applyRotation (applyGate initialSession "H") Axis.z (JSNum.val 90)) ∧
      blochNorm (applyRotation (applyGate initialSession "H") Axis.z (JSNum.val 90)).state = 1 :=
  ⟨Reachable.rot Axis.z (JSNum.val 90) (Reachable.gate "H" Reachable.start),
   reachable_session_state_unit_norm _
     (Reachable.rot Axis.z (JSNum.val 90) (Reachable.gate "H" Reachable.start))⟩

/-- C8: on every unit Bloch vector, applying X twice via the amplitude
round trip returns the original vector, and likewise applying H twice —
both gates are self-inverse as implemented. -/
theorem gate_X_H_self_inverse (v : BlochVector)
    (h : v.x ^ 2 + v.y ^ 2 + v.z ^ 2 = 1) :
    applyGateToVector (applyGateToVector v "X") "X" = v ∧
    applyGateToVector (applyGateToVector v "H") "H" = v := by
  constructor
  · rw [applyGateToVector_X h,
      applyGateToVector_X (show v.x ^ 2 + v.y ^ 2 + (-v.z) ^ 2 = 1 by linear_combination h)]
    show (⟨v.x, v.y, -(-v.z)⟩ : BlochVector) = v
    rw [neg_neg]
  · rw [applyGateToVector_H h,
      applyGateToVector_H (show v.z ^ 2 + v.y ^ 2 + v.x ^ 2 = 1 by linear_combination h)]

/-- Witness for C8 at the north pole `(0,0,1)`. -/
theorem gate_X_H_self_inverse_witness :
    ((0:ℝ) ^ 2 + (0:ℝ) ^ 2 + (1:ℝ) ^ 2 = 1) ∧
    (applyGateToVector (applyGateToVector ⟨0, 0, 1⟩ "X") "X" = ⟨0, 0, 1⟩ ∧
     applyGateToVector (applyGateToVector ⟨0, 0, 1⟩ "H") "H" = ⟨0, 0, 1⟩) :=
  ⟨by norm_num, gate_X_H_self_inverse ⟨0, 0, 1⟩ (by norm_num)⟩

/-- C1 (code bug): the Vector→Amplitudes→Vector round trip is **not** the
identity — at the unit vector `(0,1,0)` it returns `(0,−1,0)`: the `y`
line of `extractBlochVectorFromAmplitudes` has the sign of the Pauli-Y
expectation value reversed. -/
theorem vector_amplitude_roundTrip_flips_y_at_plus_y :
    extractBlochVectorFromAmplitudes (extractQuantumAmplitudes ⟨0, 1, 0⟩).1
        (extractQuantumAmplitudes ⟨0, 1, 0⟩).2 = ⟨0, -1, 0⟩ ∧
      (⟨0, -1, 0⟩ : BlochVector) ≠ ⟨0, 1, 0⟩ := by
  constructor
  · exact roundTrip_eq_flipY (by norm_num)
  · intro he
    have hy := congrArg BlochVector.y he
    norm_num at hy

/-- C5 (code bug): the default branch of `applyGateToState` does leave the
amplitudes untouched, but the surrounding amplitude round trip is not the
identity, so `applyGateToVector` with the unknown token `"Q"` moves the
unit vector `(0,1,0)` to `(0,−1,0)` instead of returning it unchanged. -/
theorem unknown_gate_token_changes_vector :
    applyGateToVector ⟨0, 1, 0⟩ "Q" = ⟨0, -1, 0⟩ ∧
      (⟨0, -1, 0⟩ : BlochVector) ≠ ⟨0, 1, 0⟩ := by
  constructor
  · simp only [applyGateToVector]
    rw [applyGateToState_Q]
    exact roundTrip_eq_flipY (by norm_num)
  · intro he
    have hy := congrArg BlochVector.y he
    norm_num at hy

/-- C7 (code bug): the normalized amplitude pair `((√2/2, 0), (0, √2/2))`
(the +y eigenstate) round-trips through the Bloch vector to its complex
conjugate `((√2/2, 0), (0, −√2/2))`, which is not `(c·a, c·b)` for any
complex `c` at all — in particular for no unit `c`. -/
theorem amplitudes_roundTrip_not_identity_up_to_phase :
    ((Real.sqrt 2 / 2) ^ 2 + (0:ℝ) ^ 2 + ((0:ℝ) ^ 2 + (Real.sqrt 2 / 2) ^ 2) = 1) ∧
    extractQuantumAmplitudes
        (extractBlochVectorFromAmplitudes (Real.sqrt 2 / 2, 0) (0, Real.sqrt 2 / 2))
      = ((Real.sqrt 2 / 2, 0), (0, -(Real.sqrt 2 / 2))) ∧
    ¬ ∃ c : ℝ × ℝ,
        cmul c (Real.sqrt 2 / 2, 0) = (Real.sqrt 2 / 2, 0) ∧
        cmul c (0, Real.sqrt 2 / 2) = (0, -(Real.sqrt 2 / 2)) := by
  have s2 : Real.sqrt 2 * Real.sqrt 2 = 2 := Real.mul_self_sqrt (by norm_num)
  have s2pos : 0 < Real.sqrt 2 := Real.sqrt_pos.mpr (by norm_num)
  refine ⟨by nlinarith [s2], ?_, ?_⟩
  · have hv : extractBlochVectorFromAmplitudes (Real.sqrt 2 / 2, 0) (0, Real.sqrt 2 / 2)
        = ⟨0, -1, 0⟩ := by
      apply extractBloch_eq_of_components
      · show 2 * (Real.sqrt 2 / 2 * 0 + 0 * (Real.sqrt 2 / 2)) = (0:ℝ)
        ring
      · show 2 * (0 * 0 - Real.sqrt 2 / 2 * (Real.sqrt 2 / 2)) = (-1 : ℝ)
        nlinarith [s2]
      · show Real.sqrt 2 / 2 * (Real.sqrt 2 / 2) + 0 * 0 - 0 * 0
            - Real.sqrt 2 / 2 * (Real.sqrt 2 / 2) = (0:ℝ)
        ring
      · norm_num
    rw [hv, extractQuantumAmplitudes_unit (by norm_num)]
    have harg : atan2 (-1 : ℝ) 0 = -(Real.pi / 2) := by
      unfold atan2
      rw [show (⟨0, -1⟩ : ℂ) = -Complex.I from by simp [Complex.ext_iff]]
      exact Complex.arg_neg_I
    have hq : Real.arccos 0 / 2 = Real.pi / 4 := by
      rw [Real.arccos_zero]
      ring
    simp only [harg, hq, Real.cos_pi_div_four, Real.sin_pi_div_four, Real.cos_neg,
      Real.sin_neg, Real.cos_pi_div_two, Real.sin_pi_div_two, mul_zero, mul_neg_one]
  · rintro ⟨c, h1, h2⟩
    have e1 : c.1 * (Real.sqrt 2 / 2) - c.2 * 0 = Real.sqrt 2 / 2 := congrArg Prod.fst h1
    have e3 : c.1 * (Real.sqrt 2 / 2) + c.2 * 0 = -(Real.sqrt 2 / 2) := congrArg Prod.snd h2
    ring_nf at e1 e3
    linarith [e1, e3, s2pos]
